import Mathlib

/-!
Verification development for the UPC decision scraper
(`src/upc_scraper.py`, class `UPCDecisionScraper`).

The Python source is shallowly embedded: texts are `List Char`
(Python `str`, restricted to the ASCII fragment the claims exercise:
`\d` in the source regexes is modelled as an ASCII digit, and
`str.lower` / SQLite's case folding as ASCII lowercasing), the SQLite
table `UPC_decisions` is a list of rows plus the AUTOINCREMENT
counter, timestamps are naturals supplied by an explicit clock
argument, and the network is an explicit environment mapping page
indices and document URLs to outcomes.
-/

namespace UPC

/-- Characters of a string literal, the text representation used throughout. -/
def str (s : String) : List Char := s.data

/-- ASCII lowercasing of one character: models Python's `str.lower` and the
case folding SQLite's `LIKE` applies, on the ASCII inputs that occur here. -/
def lowerChar (c : Char) : Char :=
  if 'A' ≤ c ∧ c ≤ 'Z' then Char.ofNat (c.toNat + 32) else c

/-- ASCII lowercasing of a text. -/
def lowerStr (t : List Char) : List Char := t.map lowerChar

/-- `needle in hay` for Python strings: literal substring containment. -/
def containsSub (needle : List Char) : List Char → Bool
  | [] => needle.isEmpty
  | c :: t => needle.isPrefixOf (c :: t) || containsSub needle t

/-!
## Reference Extractor (`extract_pdf_text`, lines 205–222)

Each pattern in `decision_ref_patterns` has the shape
`LITERAL ++ \d+ ++ "/20" ++ \d{2}`.  Because `/` is not a digit, the greedy
`\d+` never backtracks usefully, so a match at a position is: the literal
prefix, then the maximal nonempty digit run, then literally `/20`, then two
digits.  `re.findall(...)[0]` is the leftmost such match.
-/

/-- Match one reference pattern (`pre ++ \d+ ++ "/20" ++ \d{2}`) at the start
of `s`, returning the matched characters. -/
def matchRefAt (pre : List Char) (s : List Char) : Option (List Char) :=
  if pre.isPrefixOf s then
    if ((s.drop pre.length).takeWhile Char.isDigit).isEmpty then none
    else
      match (s.drop pre.length).dropWhile Char.isDigit with
      | '/' :: '2' :: '0' :: a :: b :: _ =>
          if a.isDigit && b.isDigit then
            some (pre ++ (s.drop pre.length).takeWhile Char.isDigit ++
              ('/' :: '2' :: '0' :: a :: b :: []))
          else none
      | _ => none
  else none

/-- Leftmost match of one reference pattern in `s`: models
`re.findall(pattern, s)[0]`. -/
def findPat (pre : List Char) : List Char → Option (List Char)
  | [] => none
  | c :: t =>
    match matchRefAt pre (c :: t) with
    | some m => some m
    | none => findPat pre t

/-- `if not decision_reference.startswith('UPC_'): decision_reference = 'UPC_' + ...` -/
def canonRef (m : List Char) : List Char :=
  if (str "UPC_").isPrefixOf m then m else str "UPC_" ++ m

/-- The ordered `decision_ref_patterns` list, each given by its literal part
before `\d+/20\d{2}`. -/
def refPatterns : List (List Char) :=
  [str "UPC_CFI_", str "UPC_CoA_", str "CFI_", str "CoA_"]

/-- The `for pattern in decision_ref_patterns` loop: first pattern that
matches anywhere wins, its leftmost match is canonicalised and returned. -/
def firstRef : List (List Char) → List Char → List Char
  | [], _ => []
  | p :: ps, s =>
    match findPat p s with
    | some m => canonRef m
    | none => firstRef ps s

/-- Reference extraction from a full text (lines 206–220 of the source). -/
def extractRef (s : List Char) : List Char := firstRef refPatterns s

/-!
## PDF text extraction (`extract_pdf_text`, lines 186–226)

The network/PyPDF2 side is an explicit outcome: the whole fetch/parse can
throw (`derr`, the outer `except` returning `("", "")`), or yield a list of
pages each of which either extracts to text or throws (the inner
per-page `except ... continue`).
-/

/-- One PDF page: its extracted text, or a per-page extraction failure. -/
inductive PageText
  | perr : PageText
  | ptext : List Char → PageText
deriving DecidableEq

/-- Outcome of fetching and opening one document. -/
inductive DocOutcome
  | derr : DocOutcome
  | dok : List PageText → DocOutcome
deriving DecidableEq

/-- `fulltext += page.extract_text() + "\n"`, skipping failing pages. -/
def pagesText : List PageText → List Char
  | [] => []
  | PageText.perr :: rest => pagesText rest
  | PageText.ptext t :: rest => t ++ '\n' :: pagesText rest

/-- `extract_pdf_text`: returns `(fulltext, decision_reference)`, and
`("", "")` when the fetch or the PDF parse throws. -/
def extract_pdf_text : DocOutcome → List Char × List Char
  | DocOutcome.derr => ([], [])
  | DocOutcome.dok pages => (pagesText pages, extractRef (pagesText pages))

/-!
## Decision store (`init_database`, `decision_exists`, `save_decision`)

One row of the `UPC_decisions` table (lines 58–74).  `id` is the
AUTOINCREMENT primary key, `number` carries the `UNIQUE` constraint,
timestamps are modelled as naturals (`CURRENT_TIMESTAMP` becomes an
explicit `now` argument).
-/

structure Row where
  id : Nat
  date : List Char
  number : List Char
  court : List Char
  type_of_action : List Char
  parties : List Char
  pdf_url : Option (List Char)
  node : Option (List Char)
  fulltext : List Char
  decision_reference : List Char
  number_citations : Nat
  created_at : Nat
  updated_at : Nat
deriving DecidableEq

/-- The SQLite database: the `UPC_decisions` rows plus the AUTOINCREMENT
counter for `id`. -/
structure DB where
  rows : List Row
  nextId : Nat
deriving DecidableEq

/-- The freshly initialised database. -/
def emptyDB : DB := { rows := [], nextId := 1 }

/-- The dict built by `parse_decision_row`; `fulltext` / `decision_reference`
default to `""` mirroring `decision_data.get('fulltext', '')` in
`save_decision`. -/
structure DecisionData where
  date : List Char
  number : List Char
  court : List Char
  type_of_action : List Char
  parties : List Char
  pdf_url : Option (List Char)
  node : Option (List Char)
  fulltext : List Char := []
  decision_reference : List Char := []
deriving DecidableEq

/-- `SELECT COUNT(*) FROM UPC_decisions WHERE number = ?`. -/
def numberCount (db : DB) (n : List Char) : Nat :=
  (db.rows.filter (fun r => r.number == n)).length

/-- `decision_exists` (lines 228–239): `count > 0`. -/
def decision_exists (db : DB) (n : List Char) : Bool :=
  decide (0 < numberCount db n)

/-- The row inserted by `save_decision`'s `INSERT OR REPLACE`: columns not in
the column list take their declared defaults — a fresh `id`,
`number_citations = 0` and `created_at = CURRENT_TIMESTAMP`; `updated_at` is
set explicitly to `CURRENT_TIMESTAMP`. -/
def rowOf (d : DecisionData) (rid now : Nat) : Row :=
  { id := rid, date := d.date, number := d.number, court := d.court,
    type_of_action := d.type_of_action, parties := d.parties,
    pdf_url := d.pdf_url, node := d.node, fulltext := d.fulltext,
    decision_reference := d.decision_reference, number_citations := 0,
    created_at := now, updated_at := now }

/-- `save_decision` (lines 241–268): SQLite `INSERT OR REPLACE` deletes any
row conflicting on the `UNIQUE number` column, then inserts the new row. -/
def save_decision (d : DecisionData) (now : Nat) (db : DB) : DB :=
  { rows := db.rows.filter (fun r => !(r.number == d.number)) ++
      [rowOf d db.nextId now],
    nextId := db.nextId + 1 }

/-- `SELECT ... FROM UPC_decisions WHERE number = ?` returning the (unique)
matching row, used to observe the store in the theorems below. -/
def lookupByNumber (db : DB) (n : List Char) : Option Row :=
  db.rows.find? (fun r => r.number == n)

/-!
## Citation pass (`calculate_citations`, lines 333–370)

The count query is
`SELECT COUNT(*) ... WHERE id != ? AND fulltext LIKE ? AND fulltext IS NOT NULL`
with the parameter `f"%{decision_ref}%"`.  SQLite `LIKE` is matched here
exactly: `%` matches any sequence, `_` matches any single character, every
other character matches itself up to ASCII case.  Nothing is escaped in the
source, so the underscores inside a reference code act as wildcards.
-/

/-- `f s || f (tail) || ...`: does any suffix of the text satisfy `f`?
(the `%` step of `LIKE`). -/
def anySuffix (f : List Char → Bool) : List Char → Bool
  | [] => f []
  | c :: t => f (c :: t) || anySuffix f t

/-- SQLite `LIKE` pattern matching (default `PRAGMA case_sensitive_like=OFF`,
ASCII case folding). -/
def likeMatch : List Char → List Char → Bool
  | [] => fun s => s.isEmpty
  | '%' :: ps => anySuffix (likeMatch ps)
  | '_' :: ps => fun s =>
      match s with
      | [] => false
      | _ :: t => likeMatch ps t
  | c :: ps => fun s =>
      match s with
      | [] => false
      | d :: t => (lowerChar c == lowerChar d) && likeMatch ps t

/-- `fulltext LIKE '%' || needle || '%'`. -/
def likeContains (needle hay : List Char) : Bool :=
  likeMatch ('%' :: (needle ++ ['%'])) hay

/-- The citation count query for one decision (`id != ? AND fulltext LIKE ?`;
`fulltext IS NOT NULL` always holds in the model). -/
def citationLikeCount (db : DB) (decId : Nat) (ref : List Char) : Nat :=
  db.rows.countP (fun e => (e.id != decId) && likeContains ref e.fulltext)

/-- The `UPDATE UPC_decisions SET number_citations = ?, updated_at = ...
WHERE id = ?` statement. -/
def updateCitation (db : DB) (decId cnt now : Nat) : DB :=
  { db with rows := db.rows.map (fun r =>
      if r.id = decId then
        { r with number_citations := cnt, updated_at := now }
      else r) }

/-- The snapshot
`SELECT id, decision_reference ... WHERE decision_reference != '' AND ... IS NOT NULL`
fetched before the update loop. -/
def calcSnapshot (db : DB) : List (Nat × List Char) :=
  (db.rows.filter (fun r => !(r.decision_reference.isEmpty))).map
    (fun r => (r.id, r.decision_reference))

/-- The `for decision_id, decision_ref in decisions` loop, including the
(dead) `if not decision_ref: continue` guard. -/
def calcLoop (now : Nat) : List (Nat × List Char) → DB → DB
  | [], db => db
  | (i, ref) :: rest, db =>
    if ref.isEmpty then calcLoop now rest db
    else calcLoop now rest (updateCitation db i (citationLikeCount db i ref) now)

/-- `calculate_citations`. -/
def calculate_citations (db : DB) (now : Nat) : DB :=
  calcLoop now (calcSnapshot db) db

/-!
## Row normalizer (`parse_decision_row`, lines 126–184)

A table row is its `<td>` cells; each cell carries its stripped text and the
`href`s of its `<a ... href=...>` links, in document order.
-/

structure Cell where
  txt : List Char
  links : List (List Char)
deriving DecidableEq

structure TableRow where
  cells : List Cell
deriving DecidableEq

/-- Default cell for index access; never reached behind the length guards of
the source. -/
def cellDefault : Cell := { txt := [], links := [] }

/-- Text of cell `i` of a row. -/
def cellTxt (row : TableRow) (i : Nat) : List Char :=
  (row.cells.getD i cellDefault).txt

/-- The guard `if cell_text and not cell_text.lower() in ['n/a', '-', '']`,
negated: a cell text that cannot serve as the registry number. -/
def isPlaceholder (t : List Char) : Bool :=
  t.isEmpty || (lowerStr t == str "n/a") || (lowerStr t == str "-") ||
    (lowerStr t == str "")

/-- The `for i in range(1, min(3, len(cells)))` scan: with the length-5 guard
already passed the window is exactly the cells at indices 1 and 2; the first
non-placeholder text wins, otherwise `number` stays `""`. -/
def pickNumber (cells : List Cell) : List Char :=
  let c1 := (cells.getD 1 cellDefault).txt
  if !(isPlaceholder c1) then c1
  else
    let c2 := (cells.getD 2 cellDefault).txt
    if !(isPlaceholder c2) then c2 else []

/-- `self.base_url`. -/
def baseUrl : List Char := str "https://www.unified-patent-court.org"

/-- `urllib.parse.urljoin(self.base_url, href)`, specialised to the fixed
base URL of the source (scheme + authority, empty path): absolute references
are returned as-is, scheme-relative ones get the base scheme, and the rest is
resolved against the authority. -/
def urljoinM (base rel : List Char) : List Char :=
  if (str "http://").isPrefixOf rel || (str "https://").isPrefixOf rel then rel
  else if (str "//").isPrefixOf rel then str "https:" ++ rel
  else if (str "/").isPrefixOf rel then base ++ rel
  else base ++ '/' :: rel

/-- `href.lower().endswith('.pdf')`. -/
def endsPdf (href : List Char) : Bool :=
  (str ".pdf").isSuffixOf (lowerStr href)

/-- `'en' in href.lower()`. -/
def hasEn (href : List Char) : Bool :=
  containsSub (str "en") (lowerStr href)

/-- One attempt of `re.search(r'/node/(\d+)', href)` at the start of `s`:
the literal `/node/` followed by the (greedy, maximal) nonempty digit run
that is captured. -/
def nodeMatchAt (s : List Char) : Option (List Char) :=
  if (str "/node/").isPrefixOf s then
    let ds := (s.drop 6).takeWhile Char.isDigit
    if ds.isEmpty then none else some ds
  else none

/-- `re.search(r'/node/(\d+)', href)` — leftmost occurrence, returning the
captured digit group. -/
def nodeSearch : List Char → Option (List Char)
  | [] => none
  | c :: t =>
    match nodeMatchAt (c :: t) with
    | some ds => some ds
    | none => nodeSearch t

/-- The `for cell in cells: for link in ...` scan (lines 157–170) over the
flattened link list, threading the `pdf_url` and `node` accumulators.
`if href:` skips empty hrefs; a `.pdf` link is taken when none is held yet or
when it contains `'en'`; every `/node/<digits>` match overwrites `node`. -/
def scanLinks : List (List Char) → Option (List Char) → Option (List Char) →
    Option (List Char) × Option (List Char)
  | [], pu, nd => (pu, nd)
  | h :: rest, pu, nd =>
    if h.isEmpty then scanLinks rest pu nd
    else
      let pu2 := if endsPdf h then
          (match pu with
           | none => some (urljoinM baseUrl h)
           | some u => if hasEn h then some (urljoinM baseUrl h) else some u)
        else pu
      let nd2 := match nodeSearch h with
        | some ds => some ds
        | none => nd
      scanLinks rest pu2 nd2

/-- All hrefs of a row in scan order. -/
def rowLinks (row : TableRow) : List (List Char) :=
  row.cells.flatMap Cell.links

/-- `parse_decision_row`: `None` on fewer than 5 cells or when no candidate
number cell survives; otherwise the normalised record. -/
def parse_decision_row (row : TableRow) : Option DecisionData :=
  if row.cells.length < 5 then none
  else
    let number := pickNumber row.cells
    if number.isEmpty then none
    else
      let pn := scanLinks (rowLinks row) none none
      some { date := cellTxt row 0,
             number := number,
             court := if 2 < row.cells.length then cellTxt row 2 else str "Unknown",
             type_of_action :=
               if 3 < row.cells.length then cellTxt row 3 else str "Unknown",
             parties := if 4 < row.cells.length then cellTxt row 4 else str "Unknown",
             pdf_url := pn.1,
             node := pn.2 }

/-!
## Pipeline orchestrator (`scrape_decisions`, lines 270–331)

The network is an environment: `pageAt` is `get_decisions_page` together with
the table/rows lookup (an exception, or the parsed rows — a page whose HTML
has no table or no rows is a page with no rows: both `break`), `docAt` is the
document fetch behind `extract_pdf_text`.
-/

inductive PageFetch
  | perr : PageFetch
  | pok : List TableRow → PageFetch

structure Env where
  pageAt : Nat → PageFetch
  docAt : List Char → DocOutcome

/-- The body of the `for row in rows` loop: parse, skip empty/duplicate
numbers, extract the PDF when a URL is present, save; the returned flag tells
whether a new decision was ingested. -/
def processRow (env : Env) (now : Nat) (db : DB) (row : TableRow) : DB × Bool :=
  match parse_decision_row row with
  | none => (db, false)
  | some d =>
    if d.number.isEmpty then (db, false)
    else if decision_exists db d.number then (db, false)
    else
      match d.pdf_url with
      | some url =>
        let ft := extract_pdf_text (env.docAt url)
        (save_decision { d with fulltext := ft.1, decision_reference := ft.2 }
          now db, true)
      | none => (save_decision d now db, true)

/-- The whole `for row in rows` loop, counting `page_new_decisions`. -/
def processRows (env : Env) (now : Nat) : List TableRow → DB → DB × Nat
  | [], db => (db, 0)
  | r :: rs, db =>
    let s := processRow env now db r
    let t := processRows env now rs s.1
    (t.1, (if s.2 then 1 else 0) + t.2)

/-- Trace entry for one fetched listing page: the page-level exception
(`perr`), or a processed page with its new-decision count (`pok n`; a page
whose HTML yields no rows is recorded as `pok 0` — both stop traversal). -/
inductive PageStep
  | perr : PageStep
  | pok : Nat → PageStep
deriving DecidableEq

/-- The `for page in range(max_pages)` loop with its three `break`s, returning
the final store and, for the statement of the traversal claims, the trace of
fetched pages. -/
def scrapeGo (env : Env) (now : Nat) : Nat → Nat → DB → DB × List (Nat × PageStep)
  | 0, _, db => (db, [])
  | fuel + 1, p, db =>
    match env.pageAt p with
    | PageFetch.perr => (db, [(p, PageStep.perr)])
    | PageFetch.pok rows =>
      if rows.isEmpty then (db, [(p, PageStep.pok 0)])
      else
        let s := processRows env now rows db
        if s.2 = 0 then (s.1, [(p, PageStep.pok s.2)])
        else
          let t := scrapeGo env now fuel (p + 1) s.1
          (t.1, (p, PageStep.pok s.2) :: t.2)

/-- `scrape_decisions(max_pages)`. -/
def scrape_decisions (env : Env) (now : Nat) (maxPages : Nat) (db : DB) :
    DB × List (Nat × PageStep) :=
  scrapeGo env now maxPages 0 db

/-!
## Store lemmas
-/

/-- After an upsert, looking up the upserted key finds exactly the freshly
inserted row. -/
theorem save_lookup (d : DecisionData) (now : Nat) (db : DB) :
    lookupByNumber (save_decision d now db) d.number =
      some (rowOf d db.nextId now) := by
  unfold lookupByNumber save_decision
  rw [List.find?_append]
  have h1 : (db.rows.filter (fun r => !(r.number == d.number))).find?
      (fun r => r.number == d.number) = none := by
    rw [List.find?_eq_none]
    intro x hx
    have := (List.mem_filter.mp hx).2
    simp only [Bool.not_eq_true'] at this
    simp [this]
  rw [h1]
  simp [List.find?, rowOf]

/-- After an upsert, the upserted key occurs on exactly one row. -/
theorem save_numberCount (d : DecisionData) (now : Nat) (db : DB) :
    numberCount (save_decision d now db) d.number = 1 := by
  unfold numberCount save_decision
  rw [List.filter_append]
  have h1 : (db.rows.filter (fun r => !(r.number == d.number))).filter
      (fun r => r.number == d.number) = [] := by
    rw [List.filter_eq_nil_iff]
    intro a ha
    have := (List.mem_filter.mp ha).2
    simp only [Bool.not_eq_true'] at this
    simp [this]
  rw [h1]
  simp [List.filter, rowOf]

/-- C4, proved:  after `save_decision`, `decision_exists` on the same key is
true; upserting the same key twice leaves exactly one row with that key; and
the uniqueness of the `number` column is preserved by every upsert. -/
theorem c4_upsert_exists_unique (d d2 : DecisionData) (now now2 : Nat) (db : DB) :
    decision_exists (save_decision d now db) d.number = true ∧
    (d2.number = d.number →
      numberCount (save_decision d2 now2 (save_decision d now db)) d.number = 1) ∧
    ((db.rows.map Row.number).Nodup →
      ((save_decision d now db).rows.map Row.number).Nodup) := by
  refine ⟨?_, ?_, ?_⟩
  · unfold decision_exists
    rw [save_numberCount]
    decide
  · intro h
    rw [← h]
    exact save_numberCount d2 now2 (save_decision d now db)
  · intro hnd
    unfold save_decision
    simp only [List.map_append, List.nodup_append]
    refine ⟨?_, ?_, ?_⟩
    · exact ((List.filter_sublist db.rows).map Row.number).nodup hnd
    · simp [rowOf]
    · intro a ha hb
      simp only [List.mem_map] at ha
      obtain ⟨r, hr, hra⟩ := ha
      have hp := (List.mem_filter.mp hr).2
      simp only [Bool.not_eq_true'] at hp
      have : r.number ≠ d.number := beq_eq_false_iff_ne.mp hp
      simp [rowOf] at hb
      exact this (hra ▸ hb)

/-- Concrete record for the C4 witness. -/
def dW : DecisionData :=
  { date := str "2024-05-05", number := str "ORD_1/2024", court := str "CFI",
    type_of_action := str "Order", parties := str "A v B",
    pdf_url := none, node := none }

/-- Witness for C4 at a concrete record and the empty store. -/
theorem c4_upsert_exists_unique_witness :
    dW.number = dW.number ∧ ((emptyDB.rows.map Row.number).Nodup ∧
    (decision_exists (save_decision dW 0 emptyDB) dW.number = true ∧
     numberCount (save_decision dW 1 (save_decision dW 0 emptyDB)) dW.number = 1 ∧
     ((save_decision dW 0 emptyDB).rows.map Row.number).Nodup)) := by
  have h := c4_upsert_exists_unique dW dW 0 1 emptyDB
  exact ⟨rfl, by decide, h.1, h.2.1 rfl, h.2.2 (by decide)⟩

/-- Concrete record for the C5 counterexample (no document fields). -/
def dX : DecisionData :=
  { date := str "2023-06-01", number := str "X-1", court := str "CFI",
    type_of_action := str "Order", parties := str "A v B",
    pdf_url := none, node := none }

/-- Store after inserting `dX` at time 0. -/
def dbX1 : DB := save_decision dX 0 emptyDB

/-- Store after re-upserting `dX` at time 1. -/
def dbX2 : DB := save_decision dX 1 dbX1

/-- C5 refuted as stated:  the first insertion stamps `created_at = 0`, but
re-upserting the same key at time 1 leaves the stored row with
`created_at = 1` — `INSERT OR REPLACE` deletes the old row and the re-inserted
row takes a fresh `CURRENT_TIMESTAMP` default, so the provenance timestamp
does **not** stay at the original insertion time. -/
theorem c5_counterexample :
    (lookupByNumber dbX1 (str "X-1")).map Row.created_at = some 0 ∧
    (lookupByNumber dbX2 (str "X-1")).map Row.created_at = some 1 := by
  decide

/-- C5, amended and proved:  upserting an already-stored identity key replaces
the whole row — the document-derived fields are replaced and `updated_at`
refreshed, but `created_at` is reset to the upsert time as well (and
`number_citations` to its default 0), instead of keeping the original
insertion timestamp. -/
theorem c5_upsert_replaces_whole_row (d : DecisionData) (now : Nat) (db : DB) :
    (lookupByNumber (save_decision d now db) d.number).map
      (fun r => (r.date, r.court, r.type_of_action, r.parties, r.pdf_url,
        r.node, r.fulltext, r.decision_reference, r.number_citations,
        r.created_at, r.updated_at)) =
    some (d.date, d.court, d.type_of_action, d.parties, d.pdf_url,
      d.node, d.fulltext, d.decision_reference, 0, now, now) := by
  rw [save_lookup]
  rfl

/-!
## The three-decision end-to-end scenario (C2)

Three decisions are ingested the way `scrape_decisions` ingests a row with a
document: each full text and reference code comes from `extract_pdf_text` on
the raw document, and the records are stored with `save_decision`.
-/

/-- Raw text of decision CFI-1: contains its own code `UPC_CFI_1/2023`. -/
def textC1 : List Char := str "Decision UPC_CFI_1/2023 of the court"

/-- Raw text of decision CFI-2: contains the literal string
`UPC_CFI_1/2023` exactly once. -/
def textC2 : List Char := str "We refer to UPC_CFI_1/2023 here"

/-- Raw text of decision CFI-3: no recognizable code. -/
def textC3 : List Char := str "No recognizable code here"

/-- Ingested record with identity `CFI-1`. -/
def decC1 : DecisionData :=
  { date := str "2023-01-01", number := str "CFI-1", court := str "CFI",
    type_of_action := str "Order", parties := str "A v B",
    pdf_url := none, node := none,
    fulltext := (extract_pdf_text (DocOutcome.dok [PageText.ptext textC1])).1,
    decision_reference :=
      (extract_pdf_text (DocOutcome.dok [PageText.ptext textC1])).2 }

/-- Ingested record with identity `CFI-2`. -/
def decC2 : DecisionData :=
  { date := str "2023-02-01", number := str "CFI-2", court := str "CFI",
    type_of_action := str "Order", parties := str "C v D",
    pdf_url := none, node := none,
    fulltext := (extract_pdf_text (DocOutcome.dok [PageText.ptext textC2])).1,
    decision_reference :=
      (extract_pdf_text (DocOutcome.dok [PageText.ptext textC2])).2 }

/-- Ingested record with identity `CFI-3`. -/
def decC3 : DecisionData :=
  { date := str "2023-03-01", number := str "CFI-3", court := str "CFI",
    type_of_action := str "Order", parties := str "E v F",
    pdf_url := none, node := none,
    fulltext := (extract_pdf_text (DocOutcome.dok [PageText.ptext textC3])).1,
    decision_reference :=
      (extract_pdf_text (DocOutcome.dok [PageText.ptext textC3])).2 }

/-- The store after ingesting the three decisions. -/
def dbScenario : DB :=
  save_decision decC3 3 (save_decision decC2 2 (save_decision decC1 1 emptyDB))

/-- The store after the citation pass. -/
def dbScenarioAfter : DB := calculate_citations dbScenario 4

/-- C2 refuted as stated:  CFI-2's own `reference_code` is **not** empty —
extraction finds `UPC_CFI_1/2023` (the cited code) in CFI-2's text and
assigns it as CFI-2's own reference — and CFI-2's `citation_count` comes out
as 1 (CFI-1's text contains that code), not 0 as the claim states. -/
theorem c2_counterexample :
    (lookupByNumber dbScenarioAfter (str "CFI-2")).map
      Row.decision_reference = some (str "UPC_CFI_1/2023") ∧
    (lookupByNumber dbScenarioAfter (str "CFI-2")).map
      Row.number_citations = some 1 := by
  decide

/-- C2, amended and proved:  after `calculate_citations`, CFI-1 has
`citation_count = 1` as claimed, but CFI-2 — whose own `reference_code` is the
cited code `UPC_CFI_1/2023`, since reference extraction keeps the first
pattern match in its text — also has `citation_count = 1`; CFI-3 (empty
`reference_code`) has `citation_count = 0`. -/
theorem c2_scenario :
    (lookupByNumber dbScenarioAfter (str "CFI-1")).map
      Row.number_citations = some 1 ∧
    (lookupByNumber dbScenarioAfter (str "CFI-2")).map
      (fun r => (r.decision_reference, r.number_citations)) =
      some (str "UPC_CFI_1/2023", 1) ∧
    (lookupByNumber dbScenarioAfter (str "CFI-3")).map
      Row.number_citations = some 0 := by
  decide

/-!
## Characterising the citation pass

The update loop only ever touches `number_citations` and `updated_at`, while
the count query only reads `id`, `fulltext` and (through the snapshot)
`decision_reference`; so the sequential loop equals a pointwise update
against the pre-pass store.
-/

/-- The fields of a row the citation pass reads: identity, reference code and
full text. -/
def coreOf (r : Row) : Nat × List Char × List Char :=
  (r.id, r.decision_reference, r.fulltext)

/-- Pointwise effect of the pending update list on one row: if the row's id
is scheduled with a non-empty reference, its count is recomputed against the
reference store `db0`. -/
def applyPending (db0 : DB) (now : Nat) (pending : List (Nat × List Char))
    (r : Row) : Row :=
  match pending.find? (fun q => q.1 == r.id) with
  | none => r
  | some q =>
    if q.2.isEmpty then r
    else { r with number_citations := citationLikeCount db0 r.id q.2,
                  updated_at := now }

theorem citationLikeCount_congr (db db2 : DB) (decId : Nat) (ref : List Char)
    (h : db2.rows.map coreOf = db.rows.map coreOf) :
    citationLikeCount db2 decId ref = citationLikeCount db decId ref := by
  have e : ∀ dbx : DB,
      citationLikeCount dbx decId ref =
        (dbx.rows.map coreOf).countP
          (fun t => (t.1 != decId) && likeContains ref t.2.2) := by
    intro dbx
    unfold citationLikeCount
    rw [List.countP_map]
    rfl
  rw [e, e, h]

theorem coreOf_update (i c now : Nat) (r : Row) :
    coreOf (if r.id = i then
      { r with number_citations := c, updated_at := now } else r) = coreOf r := by
  by_cases h : r.id = i <;> simp [h, coreOf]

theorem updateCitation_core (db : DB) (i c now : Nat) :
    (updateCitation db i c now).rows.map coreOf = db.rows.map coreOf := by
  show (db.rows.map _).map coreOf = _
  rw [List.map_map]
  have : coreOf ∘ (fun r => if r.id = i then
      { r with number_citations := c, updated_at := now } else r) = coreOf :=
    funext (coreOf_update i c now)
  rw [this]

theorem find_none_of_not_memFst (S : List (Nat × List Char)) (i : Nat)
    (h : i ∉ S.map Prod.fst) : S.find? (fun q => q.1 == i) = none := by
  rw [List.find?_eq_none]
  intro q hq
  simp only [Bool.not_eq_true, beq_eq_false_iff_ne]
  intro heq
  exact h (List.mem_map.mpr ⟨q, hq, heq⟩)

theorem find_of_memFst_nodup (S : List (Nat × List Char)) (i : Nat)
    (x : List Char) (hnd : (S.map Prod.fst).Nodup) (hm : (i, x) ∈ S) :
    S.find? (fun q => q.1 == i) = some (i, x) := by
  induction S with
  | nil => cases hm
  | cons q rest ih =>
    obtain ⟨j, y⟩ := q
    simp only [List.map_cons, List.nodup_cons] at hnd
    rcases List.mem_cons.mp hm with h1 | h2
    · cases h1
      exact List.find?_cons_of_pos _ (by simp)
    · have hji : j ≠ i := by
        intro hji
        exact hnd.1 (hji ▸ List.mem_map.mpr ⟨(i, x), h2, rfl⟩)
      rw [List.find?_cons_of_neg _ (by simp [hji])]
      exact ih hnd.2 h2

theorem calcLoop_rows (pending : List (Nat × List Char)) (db0 : DB) (now : Nat) :
    ∀ db : DB, (pending.map Prod.fst).Nodup →
    db.rows.map coreOf = db0.rows.map coreOf →
    (calcLoop now pending db).rows = db.rows.map (applyPending db0 now pending) := by
  induction pending with
  | nil =>
    intro db _ _
    have h : (fun r => applyPending db0 now [] r) = fun r => r :=
      funext (fun r => rfl)
    simp [calcLoop, h]
  | cons q rest ih =>
    obtain ⟨i, ref⟩ := q
    intro db hnd hcore
    simp only [List.map_cons, List.nodup_cons] at hnd
    by_cases he : ref.isEmpty
    · rw [show calcLoop now ((i, ref) :: rest) db = calcLoop now rest db from by
        simp [calcLoop, he]]
      rw [ih db hnd.2 hcore]
      have hfun : applyPending db0 now rest =
          applyPending db0 now ((i, ref) :: rest) := by
        funext r
        by_cases hir : i = r.id
        · have hfind : ((i, ref) :: rest).find? (fun q => q.1 == r.id) =
              some (i, ref) := List.find?_cons_of_pos _ (by simp [hir])
          have hrest : rest.find? (fun q => q.1 == r.id) = none := by
            apply find_none_of_not_memFst
            exact hir ▸ hnd.1
          simp [applyPending, hfind, hrest, he]
        · have hfind : ((i, ref) :: rest).find? (fun q => q.1 == r.id) =
              rest.find? (fun q => q.1 == r.id) :=
            List.find?_cons_of_neg _ (by simp [hir])
          simp only [applyPending, hfind]
      rw [hfun]
    · rw [show calcLoop now ((i, ref) :: rest) db =
          calcLoop now rest (updateCitation db i (citationLikeCount db i ref) now)
          from by simp [calcLoop, he]]
      rw [ih (updateCitation db i (citationLikeCount db i ref) now) hnd.2
        (by rw [updateCitation_core, hcore])]
      rw [show (updateCitation db i (citationLikeCount db i ref) now).rows =
          db.rows.map (fun r => if r.id = i then
            { r with number_citations := citationLikeCount db i ref,
                     updated_at := now } else r) from rfl]
      rw [List.map_map]
      have hfun : (applyPending db0 now rest ∘ fun r => if r.id = i then
            { r with number_citations := citationLikeCount db i ref,
                     updated_at := now } else r) =
          applyPending db0 now ((i, ref) :: rest) := by
        funext r
        by_cases hir : i = r.id
        · subst hir
          have hfind : ((r.id, ref) :: rest).find? (fun q => q.1 == r.id) =
              some (r.id, ref) := List.find?_cons_of_pos _ (by simp)
          have hrest : rest.find? (fun q => q.1 == r.id) = none :=
            find_none_of_not_memFst rest r.id hnd.1
          have hcnt : citationLikeCount db r.id ref = citationLikeCount db0 r.id ref :=
            citationLikeCount_congr db0 db r.id ref hcore
          simp [Function.comp, applyPending, hfind, hrest, he, hcnt]
        · have hfind : ((i, ref) :: rest).find? (fun q => q.1 == r.id) =
              rest.find? (fun q => q.1 == r.id) :=
            List.find?_cons_of_neg _ (by simp [hir])
          have hu : (if r.id = i then
              { r with number_citations := citationLikeCount db i ref,
                       updated_at := now } else r) = r :=
            if_neg (fun h => hir h.symm)
          simp only [Function.comp, hu, applyPending, hfind]
      rw [hfun]

/-- Snapshot ids are the ids of the reference-bearing rows. -/
theorem calcSnapshot_fst (db : DB) :
    (calcSnapshot db).map Prod.fst =
      (db.rows.filter (fun r => !(r.decision_reference.isEmpty))).map Row.id := by
  unfold calcSnapshot
  rw [List.map_map]
  rfl

theorem calcSnapshot_fst_nodup (db : DB)
    (hids : (db.rows.map Row.id).Nodup) : ((calcSnapshot db).map Prod.fst).Nodup := by
  rw [calcSnapshot_fst]
  exact ((List.filter_sublist db.rows).map Row.id).nodup hids

/-- The whole citation pass as a pointwise map over the pre-pass store. -/
theorem calculate_citations_rows (db : DB) (now : Nat)
    (hids : (db.rows.map Row.id).Nodup) :
    (calculate_citations db now).rows =
      db.rows.map (applyPending db now (calcSnapshot db)) :=
  calcLoop_rows (calcSnapshot db) db now db (calcSnapshot_fst_nodup db hids) rfl

theorem coreOf_applyPending (db0 : DB) (now : Nat)
    (S : List (Nat × List Char)) (r : Row) :
    coreOf (applyPending db0 now S r) = coreOf r := by
  unfold applyPending
  cases S.find? (fun q => q.1 == r.id) with
  | none => rfl
  | some q =>
    by_cases h : q.2.isEmpty <;> simp [h, coreOf]

theorem calculate_citations_core (db : DB) (now : Nat)
    (hids : (db.rows.map Row.id).Nodup) :
    (calculate_citations db now).rows.map coreOf = db.rows.map coreOf := by
  rw [calculate_citations_rows db now hids, List.map_map]
  have : coreOf ∘ applyPending db now (calcSnapshot db) = coreOf :=
    funext (coreOf_applyPending db now (calcSnapshot db))
  rw [this]

/-- Row with a reference code, cited via `LIKE` wildcards only. -/
def rowD0 : Row :=
  { id := 0, date := str "2023-01-01", number := str "D0", court := str "CFI",
    type_of_action := str "Order", parties := str "A v B", pdf_url := none,
    node := none, fulltext := str "own text",
    decision_reference := str "UPC_CFI_1/2023", number_citations := 0,
    created_at := 0, updated_at := 0 }

/-- Row whose full text contains `UPCXCFIX1/2023` — not the literal code, but
a match for the unescaped `LIKE` pattern, since each `_` of the code matches
any single character. -/
def rowD1 : Row :=
  { id := 1, date := str "2023-02-01", number := str "D1", court := str "CFI",
    type_of_action := str "Order", parties := str "C v D", pdf_url := none,
    node := none, fulltext := str "see UPCXCFIX1/2023 here",
    decision_reference := [], number_citations := 0,
    created_at := 0, updated_at := 0 }

/-- Two-row store separating `LIKE` matching from literal substring
containment. -/
def dbLit : DB := { rows := [rowD0, rowD1], nextId := 2 }

/-- C1 refuted as stated:  after the citation pass, decision `D0` (reference
`UPC_CFI_1/2023`) has `citation_count = 1`, although **no** other stored
decision contains that reference as a literal substring (the count of others
whose `fulltext` literally contains it is 0).  The source counts with
`fulltext LIKE '%' || ref || '%'` without escaping, and the underscores of
the reference act as single-character wildcards (`LIKE` is also
ASCII-case-insensitive), so `UPCXCFIX1/2023` in `D1` is counted. -/
theorem c1_counterexample :
    (lookupByNumber (calculate_citations dbLit 5) (str "D0")).map
      Row.number_citations = some 1 ∧
    dbLit.rows.countP
      (fun e => (e.id != 0) && containsSub (str "UPC_CFI_1/2023") e.fulltext)
      = 0 := by
  decide

/-- C1, amended and proved:  after `calculate_citations`, every stored row
with empty `decision_reference` keeps `number_citations = 0` (given they were
0 before the pass, as the schema default guarantees for every reachable
store), and every row with a non-empty `decision_reference` has
`number_citations` equal to the number of *other* stored rows whose
`fulltext` matches the reference under SQLite `LIKE` semantics
(`citationLikeCount`: ASCII-case-insensitive, with each `_` and `%` of the
reference acting as a wildcard) — not literal substring containment. -/
theorem c1_citation_counts (db : DB) (now : Nat)
    (hids : (db.rows.map Row.id).Nodup)
    (hzero : ∀ r ∈ db.rows, r.decision_reference = [] → r.number_citations = 0) :
    ∀ r ∈ (calculate_citations db now).rows,
      (r.decision_reference = [] → r.number_citations = 0) ∧
      (r.decision_reference ≠ [] →
        r.number_citations =
          citationLikeCount (calculate_citations db now) r.id
            r.decision_reference) := by
  intro r hr
  have hcongr : ∀ (i : Nat) (ref : List Char),
      citationLikeCount (calculate_citations db now) i ref =
        citationLikeCount db i ref := fun i ref =>
    citationLikeCount_congr db (calculate_citations db now) i ref
      (calculate_citations_core db now hids)
  rw [calculate_citations_rows db now hids] at hr
  obtain ⟨r0, hr0, rfl⟩ := List.mem_map.mp hr
  by_cases h0 : r0.decision_reference = []
  · have hnone : (calcSnapshot db).find? (fun q => q.1 == r0.id) = none := by
      apply find_none_of_not_memFst
      rw [calcSnapshot_fst]
      intro hmem
      obtain ⟨e, he, heid⟩ := List.mem_map.mp hmem
      have heq : e = r0 := List.inj_on_of_nodup_map hids
        ((List.filter_sublist db.rows).mem he) hr0 heid
      have := (List.mem_filter.mp he).2
      rw [heq, h0] at this
      simp at this
    have hap : applyPending db now (calcSnapshot db) r0 = r0 := by
      unfold applyPending
      rw [hnone]
    rw [hap]
    exact ⟨fun _ => hzero r0 hr0 h0, fun hne => absurd h0 hne⟩
  · have hmem : (r0.id, r0.decision_reference) ∈ calcSnapshot db := by
      unfold calcSnapshot
      exact List.mem_map.mpr ⟨r0,
        List.mem_filter.mpr ⟨hr0, by simp [h0]⟩, rfl⟩
    have hfind : (calcSnapshot db).find? (fun q => q.1 == r0.id) =
        some (r0.id, r0.decision_reference) :=
      find_of_memFst_nodup (calcSnapshot db) r0.id r0.decision_reference
        (calcSnapshot_fst_nodup db hids) hmem
    have hap : applyPending db now (calcSnapshot db) r0 =
        { r0 with
            number_citations := citationLikeCount db r0.id r0.decision_reference,
            updated_at := now } := by
      unfold applyPending
      rw [hfind]
      simp [h0]
    rw [hap]
    refine ⟨fun hc => absurd hc h0, fun _ => ?_⟩
    show citationLikeCount db r0.id r0.decision_reference = _
    rw [hcongr r0.id r0.decision_reference]

/-- The `D0` row as it stands after the pass over `dbLit`. -/
def rowD0after : Row := { rowD0 with number_citations := 1, updated_at := 5 }

/-- Witness for C1 at the concrete two-row store `dbLit` and its row `D0`
after the pass. -/
theorem c1_citation_counts_witness :
    ((dbLit.rows.map Row.id).Nodup ∧
      (∀ r ∈ dbLit.rows, r.decision_reference = [] → r.number_citations = 0) ∧
      rowD0after ∈ (calculate_citations dbLit 5).rows) ∧
    ((rowD0after.decision_reference = [] → rowD0after.number_citations = 0) ∧
     (rowD0after.decision_reference ≠ [] →
      rowD0after.number_citations =
        citationLikeCount (calculate_citations dbLit 5) rowD0after.id
          rowD0after.decision_reference)) :=
  ⟨⟨by decide, by decide, by decide⟩,
    c1_citation_counts dbLit 5 (by decide) (by decide) rowD0after (by decide)⟩

/-!
## Row-normalizer claims
-/

/-- C7, proved:  `parse_decision_row` returns `none` for every row with fewer
than 5 cells, and for every row whose candidate identity cells (the scan
window, cells 1 and 2) hold only placeholder text — empty, `n/a` or `-`,
matched case-insensitively as in the source's `cell_text.lower()` check;
when a candidate cell in the window holds non-placeholder text, the first
such text becomes the record's `number` (identity key). -/
theorem c7_normalizer (row : TableRow) :
    (row.cells.length < 5 → parse_decision_row row = none) ∧
    (5 ≤ row.cells.length →
      ((isPlaceholder (cellTxt row 1) = true ∧
        isPlaceholder (cellTxt row 2) = true) →
        parse_decision_row row = none) ∧
      (isPlaceholder (cellTxt row 1) = false →
        (parse_decision_row row).map DecisionData.number =
          some (cellTxt row 1)) ∧
      ((isPlaceholder (cellTxt row 1) = true ∧
        isPlaceholder (cellTxt row 2) = false) →
        (parse_decision_row row).map DecisionData.number =
          some (cellTxt row 2))) := by
  refine ⟨?_, ?_⟩
  · intro h
    simp [parse_decision_row, h]
  · intro h5
    have hlt : ¬ row.cells.length < 5 := Nat.not_lt.mpr h5
    refine ⟨?_, ?_, ?_⟩
    · intro ⟨h1, h2⟩
      have hnum : pickNumber row.cells = [] := by
        unfold pickNumber
        unfold cellTxt at h1 h2
        simp only [List.getD_eq_getElem?_getD] at h1 h2 ⊢
        simp [h1, h2]
      simp [parse_decision_row, hlt, hnum]
    · intro h1
      have hnum : pickNumber row.cells = cellTxt row 1 := by
        unfold pickNumber
        unfold cellTxt at h1 ⊢
        simp only [List.getD_eq_getElem?_getD] at h1 ⊢
        simp [h1]
      have hne : (cellTxt row 1).isEmpty = false := by
        unfold isPlaceholder at h1
        simp only [Bool.or_eq_false_iff] at h1
        exact h1.1.1.1
      simp [parse_decision_row, hlt, hnum, hne]
    · intro ⟨h1, h2⟩
      have hnum : pickNumber row.cells = cellTxt row 2 := by
        unfold pickNumber
        unfold cellTxt at h1 h2 ⊢
        simp only [List.getD_eq_getElem?_getD] at h1 h2 ⊢
        simp [h1, h2]
      have hne : (cellTxt row 2).isEmpty = false := by
        unfold isPlaceholder at h2
        simp only [Bool.or_eq_false_iff] at h2
        exact h2.1.1.1
      simp [parse_decision_row, hlt, hnum, hne]

/-- A well-formed five-cell listing row. -/
def rowW7 : TableRow :=
  { cells := [ { txt := str "2024-05-05", links := [] },
               { txt := str "ORD_9/2024", links := [] },
               { txt := str "CFI Munich", links := [] },
               { txt := str "Order", links := [] },
               { txt := str "A v B", links := [] } ] }

/-- Witness for C7 at a concrete five-cell row whose second cell holds a
non-placeholder registry number. -/
theorem c7_normalizer_witness :
    (5 ≤ rowW7.cells.length ∧ isPlaceholder (cellTxt rowW7 1) = false) ∧
    (parse_decision_row rowW7).map DecisionData.number =
      some (cellTxt rowW7 1) :=
  ⟨⟨by decide, by decide⟩,
    (((c7_normalizer rowW7).2 (by decide)).2.1 (by decide))⟩

/-!
## Link-scan claims
-/

theorem endsPdf_nil_false : endsPdf [] = false := by decide

theorem endsPdf_isEmpty_false (h : List Char) (hp : endsPdf h = true) :
    h.isEmpty = false := by
  cases h with
  | nil => rw [endsPdf_nil_false] at hp; cases hp
  | cons c t => rfl

theorem nodeSearch_nil : nodeSearch [] = none := rfl

/-- If no link ends in `.pdf`, the pdf accumulator never changes. -/
theorem scanLinks_pdf_none (links : List (List Char)) :
    ∀ pu nd, (∀ h ∈ links, endsPdf h = false) →
      (scanLinks links pu nd).1 = pu := by
  induction links with
  | nil => intro pu nd _; rfl
  | cons h rest ih =>
    intro pu nd hall
    have hh := hall h (List.mem_cons_self h rest)
    have hrest : ∀ g ∈ rest, endsPdf g = false :=
      fun g hg => hall g (List.mem_cons_of_mem h hg)
    by_cases he : h.isEmpty
    · simp only [scanLinks, he, if_pos]
      exact ih pu nd hrest
    · simp only [scanLinks, if_neg he, hh, Bool.false_eq_true, if_false]
      exact ih pu _ hrest

/-- If no link is both a `.pdf` link and contains `'en'`, a held pdf URL is
never overwritten. -/
theorem scanLinks_pdf_keep (links : List (List Char)) :
    ∀ u nd, (∀ h ∈ links, ¬(endsPdf h = true ∧ hasEn h = true)) →
      (scanLinks links (some u) nd).1 = some u := by
  induction links with
  | nil => intro u nd _; rfl
  | cons h rest ih =>
    intro u nd hall
    have hh := hall h (List.mem_cons_self h rest)
    have hrest : ∀ g ∈ rest, ¬(endsPdf g = true ∧ hasEn g = true) :=
      fun g hg => hall g (List.mem_cons_of_mem h hg)
    by_cases he : h.isEmpty
    · simp only [scanLinks, he, if_pos]
      exact ih u nd hrest
    · by_cases hpdf : endsPdf h
      · have hen : hasEn h = false := by
          cases hv : hasEn h
          · rfl
          · exact absurd ⟨hpdf, hv⟩ hh
        simp only [scanLinks, if_neg he, hpdf, if_true, Bool.false_eq_true,
          if_false, hen]
        exact ih u _ hrest
      · simp only [scanLinks, if_neg he, Bool.not_eq_true] at hpdf ⊢
        simp only [hpdf, Bool.false_eq_true, if_false]
        exact ih u _ hrest

/-- If some link is a `.pdf` link containing `'en'`, the scan ends holding
(the join of) such a link, whatever the accumulators started as. -/
theorem scanLinks_pdf_en (links : List (List Char)) :
    ∀ pu nd, (∃ h ∈ links, endsPdf h = true ∧ hasEn h = true) →
      ∃ h ∈ links, endsPdf h = true ∧ hasEn h = true ∧
        (scanLinks links pu nd).1 = some (urljoinM baseUrl h) := by
  induction links with
  | nil => intro pu nd hex; obtain ⟨h, hm, _⟩ := hex; cases hm
  | cons h rest ih =>
    intro pu nd hex
    by_cases hrest : ∃ g ∈ rest, endsPdf g = true ∧ hasEn g = true
    · obtain ⟨g, hgm, hg1, hg2, hg3⟩ := ih
        (if h.isEmpty then pu else
          (if endsPdf h then
            (match pu with
             | none => some (urljoinM baseUrl h)
             | some u => if hasEn h then some (urljoinM baseUrl h) else some u)
           else pu))
        (if h.isEmpty then nd else
          (match nodeSearch h with
           | some ds => some ds
           | none => nd)) hrest
      refine ⟨g, List.mem_cons_of_mem h hgm, hg1, hg2, ?_⟩
      rw [← hg3]
      by_cases he : h.isEmpty
      · simp only [scanLinks, he, if_pos]
      · simp only [scanLinks, if_neg he]
    · have hh : endsPdf h = true ∧ hasEn h = true := by
        obtain ⟨g, hgm, hg⟩ := hex
        rcases List.mem_cons.mp hgm with rfl | hgr
        · exact hg
        · exact absurd ⟨g, hgr, hg⟩ hrest
      have he : h.isEmpty = false := endsPdf_isEmpty_false h hh.1
      refine ⟨h, List.mem_cons_self h rest, hh.1, hh.2, ?_⟩
      have hkeep : ∀ g ∈ rest, ¬(endsPdf g = true ∧ hasEn g = true) := by
        intro g hg hc
        exact hrest ⟨g, hg, hc⟩
      have hpu2 : (match pu with
          | none => some (urljoinM baseUrl h)
          | some u => if hasEn h then some (urljoinM baseUrl h) else some u) =
          some (urljoinM baseUrl h) := by
        cases pu with
        | none => rfl
        | some u => simp [hh.2]
      simp only [scanLinks, he, Bool.false_eq_true, if_neg, hh.1, if_pos, hpu2]
      exact scanLinks_pdf_keep rest (urljoinM baseUrl h) _ hkeep

/-- If some link is a `.pdf` link but none of them contains `'en'`, the scan
started empty ends holding (the join of) the first `.pdf` link. -/
theorem scanLinks_pdf_first (links : List (List Char)) :
    ∀ nd, (∃ h ∈ links, endsPdf h = true) →
      (∀ h ∈ links, ¬(endsPdf h = true ∧ hasEn h = true)) →
      ∃ h ∈ links, endsPdf h = true ∧
        (scanLinks links none nd).1 = some (urljoinM baseUrl h) := by
  induction links with
  | nil => intro nd hex _; obtain ⟨h, hm, _⟩ := hex; cases hm
  | cons h rest ih =>
    intro nd hex hall
    have hrestall : ∀ g ∈ rest, ¬(endsPdf g = true ∧ hasEn g = true) :=
      fun g hg => hall g (List.mem_cons_of_mem h hg)
    by_cases hpdf : endsPdf h
    · have he : h.isEmpty = false := endsPdf_isEmpty_false h hpdf
      refine ⟨h, List.mem_cons_self h rest, hpdf, ?_⟩
      simp only [scanLinks, he, Bool.false_eq_true, if_neg, hpdf, if_pos]
      exact scanLinks_pdf_keep rest (urljoinM baseUrl h) _ hrestall
    · have hrestex : ∃ g ∈ rest, endsPdf g = true := by
        obtain ⟨g, hgm, hg⟩ := hex
        rcases List.mem_cons.mp hgm with rfl | hgr
        · exact absurd hg hpdf
        · exact ⟨g, hgr, hg⟩
      by_cases he : h.isEmpty
      · obtain ⟨g, hgm, hg1, hg2⟩ := ih nd hrestex hrestall
        exact ⟨g, List.mem_cons_of_mem h hgm, hg1, by
          rw [← hg2]; simp only [scanLinks, he, if_pos]⟩
      · obtain ⟨g, hgm, hg1, hg2⟩ := ih
          (match nodeSearch h with
           | some ds => some ds
           | none => nd) hrestex hrestall
        refine ⟨g, List.mem_cons_of_mem h hgm, hg1, ?_⟩
        rw [← hg2]
        simp only [scanLinks, if_neg he, Bool.not_eq_true] at hpdf ⊢
        simp only [hpdf, Bool.false_eq_true, if_false]

/-- If no link matches `/node/<digits>`, the node accumulator never
changes. -/
theorem scanLinks_node_none (links : List (List Char)) :
    ∀ pu nd, (∀ h ∈ links, nodeSearch h = none) →
      (scanLinks links pu nd).2 = nd := by
  induction links with
  | nil => intro pu nd _; rfl
  | cons h rest ih =>
    intro pu nd hall
    have hh := hall h (List.mem_cons_self h rest)
    have hrest : ∀ g ∈ rest, nodeSearch g = none :=
      fun g hg => hall g (List.mem_cons_of_mem h hg)
    by_cases he : h.isEmpty
    · simp only [scanLinks, he, if_pos]
      exact ih pu nd hrest
    · simp only [scanLinks, if_neg he, hh]
      exact ih _ _ hrest

/-- If some link matches `/node/<digits>`, the scan ends holding the captured
digit group of such a link. -/
theorem scanLinks_node_some (links : List (List Char)) :
    ∀ pu nd, (∃ h ∈ links, (nodeSearch h).isSome) →
      ∃ h ∈ links, ∃ ds, nodeSearch h = some ds ∧
        (scanLinks links pu nd).2 = some ds := by
  induction links with
  | nil => intro pu nd hex; obtain ⟨h, hm, _⟩ := hex; cases hm
  | cons h rest ih =>
    intro pu nd hex
    by_cases hrest : ∃ g ∈ rest, (nodeSearch g).isSome = true
    · obtain ⟨g, hgm, ds, hg1, hg2⟩ := ih
        (if h.isEmpty then pu else
          (if endsPdf h then
            (match pu with
             | none => some (urljoinM baseUrl h)
             | some u => if hasEn h then some (urljoinM baseUrl h) else some u)
           else pu))
        (if h.isEmpty then nd else
          (match nodeSearch h with
           | some ds => some ds
           | none => nd)) hrest
      refine ⟨g, List.mem_cons_of_mem h hgm, ds, hg1, ?_⟩
      rw [← hg2]
      by_cases he : h.isEmpty
      · simp only [scanLinks, he, if_pos]
      · simp only [scanLinks, if_neg he]
    · have hh : (nodeSearch h).isSome = true := by
        obtain ⟨g, hgm, hg⟩ := hex
        rcases List.mem_cons.mp hgm with rfl | hgr
        · exact hg
        · exact absurd ⟨g, hgr, hg⟩ hrest
      obtain ⟨ds, hds⟩ := Option.isSome_iff_exists.mp hh
      have he : h.isEmpty = false := by
        cases h with
        | nil => rw [nodeSearch_nil] at hds; cases hds
        | cons c t => rfl
      refine ⟨h, List.mem_cons_self h rest, ds, hds, ?_⟩
      have hkeep : ∀ g ∈ rest, nodeSearch g = none := by
        intro g hg
        cases hv : nodeSearch g with
        | none => rfl
        | some x => exact absurd ⟨g, hg, by simp [hv]⟩ hrest
      simp only [scanLinks, he, Bool.false_eq_true, if_neg, hds]
      exact scanLinks_node_none rest _ (some ds) hkeep

/-- A successful parse fixes `pdf_url` and `node` as the two components of
the link scan started from empty accumulators. -/
theorem parse_pdf_node (row : TableRow) (d : DecisionData)
    (hp : parse_decision_row row = some d) :
    d.pdf_url = (scanLinks (rowLinks row) none none).1 ∧
    d.node = (scanLinks (rowLinks row) none none).2 := by
  unfold parse_decision_row at hp
  by_cases h5 : row.cells.length < 5
  · rw [if_pos h5] at hp; cases hp
  · rw [if_neg h5] at hp
    by_cases hn : (pickNumber row.cells).isEmpty
    · simp only [hn, if_pos] at hp; cases hp
    · simp only [hn, Bool.false_eq_true, if_neg] at hp
      cases hp
      exact ⟨rfl, rfl⟩

/-- C8, proved:  on every successfully parsed row, `pdf_url` is `none` when
no link's (lowercased) href ends in `.pdf`; when some link does, `pdf_url` is
the base-joined URL of such a link, and whenever any qualifying link contains
the language marker `'en'` the chosen link contains it too; `node` is `none`
when no link matches `/node/<digits>`, and otherwise is the captured digit
group of a matching link. -/
theorem c8_links (row : TableRow) (d : DecisionData)
    (hp : parse_decision_row row = some d) :
    ((∀ h ∈ rowLinks row, endsPdf h = false) → d.pdf_url = none) ∧
    ((∃ h ∈ rowLinks row, endsPdf h = true) →
      ∃ h ∈ rowLinks row, endsPdf h = true ∧
        d.pdf_url = some (urljoinM baseUrl h) ∧
        ((∃ g ∈ rowLinks row, endsPdf g = true ∧ hasEn g = true) →
          hasEn h = true)) ∧
    ((∀ h ∈ rowLinks row, nodeSearch h = none) → d.node = none) ∧
    ((∃ h ∈ rowLinks row, (nodeSearch h).isSome) →
      ∃ h ∈ rowLinks row, ∃ ds, nodeSearch h = some ds ∧ d.node = some ds) := by
  obtain ⟨hpdf, hnode⟩ := parse_pdf_node row d hp
  refine ⟨?_, ?_, ?_, ?_⟩
  · intro hall
    rw [hpdf]
    exact scanLinks_pdf_none (rowLinks row) none none hall
  · intro hex
    by_cases hen : ∃ g ∈ rowLinks row, endsPdf g = true ∧ hasEn g = true
    · obtain ⟨h, hm, h1, h2, h3⟩ :=
        scanLinks_pdf_en (rowLinks row) none none hen
      exact ⟨h, hm, h1, by rw [hpdf, h3], fun _ => h2⟩
    · have hall : ∀ g ∈ rowLinks row, ¬(endsPdf g = true ∧ hasEn g = true) :=
        fun g hg hc => hen ⟨g, hg, hc⟩
      obtain ⟨h, hm, h1, h2⟩ :=
        scanLinks_pdf_first (rowLinks row) none hex hall
      exact ⟨h, hm, h1, by rw [hpdf, h2], fun hx => absurd hx hen⟩
  · intro hall
    rw [hnode]
    exact scanLinks_node_none (rowLinks row) none none hall
  · intro hex
    obtain ⟨h, hm, ds, h1, h2⟩ :=
      scanLinks_node_some (rowLinks row) none none hex
    exact ⟨h, hm, ds, h1, by rw [hnode, h2]⟩

/-- A five-cell row whose only link is a detail-page link (no document
link). -/
def rowW8 : TableRow :=
  { cells := [ { txt := str "2024-05-05", links := [str "/en/node/4711"] },
               { txt := str "ORD_10/2024", links := [] },
               { txt := str "CFI Munich", links := [] },
               { txt := str "Order", links := [] },
               { txt := str "A v B", links := [] } ] }

/-- The record `parse_decision_row` produces for `rowW8`. -/
def dW8 : DecisionData :=
  { date := str "2024-05-05", number := str "ORD_10/2024",
    court := str "CFI Munich", type_of_action := str "Order",
    parties := str "A v B", pdf_url := none, node := some (str "4711") }

/-- Witness for C8 at a concrete row without a `.pdf` link. -/
theorem c8_links_witness :
    (parse_decision_row rowW8 = some dW8 ∧
      (rowLinks rowW8).all (fun h => !(endsPdf h)) = true) ∧
    dW8.pdf_url = none :=
  ⟨⟨by decide, by decide⟩,
    (c8_links rowW8 dW8 (by decide)).1 (by decide)⟩

/-!
## Error-path claim (C9)
-/

/-- C9, proved:  when a parsed row has a valid (new) identity key and a
document URL whose fetch throws, `processRow` still stores the Decision —
with empty `fulltext` and empty `decision_reference` — and reports it as
newly ingested; looking the key up afterwards finds that row; and the
enclosing row loop goes on to process the remaining rows of the page against
the updated store, so the failure aborts only this document's extraction. -/
theorem c9_fetch_failure_still_stored (env : Env) (now : Nat) (db : DB)
    (row : TableRow) (rest : List TableRow) (d : DecisionData) (u : List Char)
    (hp : parse_decision_row row = some d)
    (hu : d.pdf_url = some u)
    (hf : env.docAt u = DocOutcome.derr)
    (hnew : decision_exists db d.number = false) :
    processRow env now db row =
      (save_decision { d with fulltext := [], decision_reference := [] } now db,
        true) ∧
    (lookupByNumber (processRow env now db row).1 d.number).map
      (fun r => (r.fulltext, r.decision_reference)) = some ([], []) ∧
    processRows env now (row :: rest) db =
      ((processRows env now rest
          (save_decision { d with fulltext := [], decision_reference := [] }
            now db)).1,
       1 + (processRows env now rest
          (save_decision { d with fulltext := [], decision_reference := [] }
            now db)).2) := by
  have hne : d.number.isEmpty = false := by
    unfold parse_decision_row at hp
    by_cases h5 : row.cells.length < 5
    · rw [if_pos h5] at hp; cases hp
    · rw [if_neg h5] at hp
      by_cases hn : (pickNumber row.cells).isEmpty
      · simp only [hn, if_pos] at hp; cases hp
      · simp only [hn, Bool.false_eq_true, if_neg] at hp
        cases hp
        simp only [Bool.not_eq_true] at hn
        exact hn
  have hrow : processRow env now db row =
      (save_decision { d with fulltext := [], decision_reference := [] } now db,
        true) := by
    unfold processRow
    rw [hp]
    simp only [hne, Bool.false_eq_true, if_neg, hnew, hu, hf]
    rfl
  refine ⟨hrow, ?_, ?_⟩
  · rw [hrow]
    have : ({ d with fulltext := [], decision_reference := [] } :
        DecisionData).number = d.number := rfl
    rw [show (save_decision { d with fulltext := [], decision_reference := [] }
        now db, true).1 =
      save_decision { d with fulltext := [], decision_reference := [] } now db
      from rfl]
    rw [← this, save_lookup]
    rfl
  · simp only [processRows, hrow]
    simp

/-- Environment whose every document fetch throws. -/
def envErr : Env :=
  { pageAt := fun _ => PageFetch.pok [], docAt := fun _ => DocOutcome.derr }

/-- A five-cell row with a valid number and a document link. -/
def rowW9 : TableRow :=
  { cells := [ { txt := str "2024-05-05", links := [str "/en/doc.pdf"] },
               { txt := str "ORD_11/2024", links := [] },
               { txt := str "CFI Munich", links := [] },
               { txt := str "Order", links := [] },
               { txt := str "A v B", links := [] } ] }

/-- The record `parse_decision_row` produces for `rowW9`. -/
def dW9 : DecisionData :=
  { date := str "2024-05-05", number := str "ORD_11/2024",
    court := str "CFI Munich", type_of_action := str "Order",
    parties := str "A v B",
    pdf_url := some (urljoinM baseUrl (str "/en/doc.pdf")), node := none }

/-- Witness for C9 at a concrete row, failing fetch and empty store. -/
theorem c9_fetch_failure_still_stored_witness :
    (parse_decision_row rowW9 = some dW9 ∧
      dW9.pdf_url = some (urljoinM baseUrl (str "/en/doc.pdf")) ∧
      envErr.docAt (urljoinM baseUrl (str "/en/doc.pdf")) = DocOutcome.derr ∧
      decision_exists emptyDB dW9.number = false) ∧
    (lookupByNumber (processRow envErr 7 emptyDB rowW9).1 dW9.number).map
      (fun r => (r.fulltext, r.decision_reference)) = some ([], []) :=
  ⟨⟨by decide, by decide, rfl, by decide⟩,
    (c9_fetch_failure_still_stored envErr 7 emptyDB rowW9 [] dW9
      (urljoinM baseUrl (str "/en/doc.pdf")) (by decide) (by decide) rfl
      (by decide)).2.1⟩

/-!
## Reference-extractor claims (C3, C10)
-/

theorem isPrefixOf_append_left (l t : List Char) :
    l.isPrefixOf (l ++ t) = true :=
  List.isPrefixOf_iff_prefix.mpr (List.prefix_append l t)

/-- Every successful pattern match at a position has the canonical shape:
the literal prefix, a nonempty digit run, then `/20` and two digits. -/
theorem matchRefAt_shape (pre s m : List Char)
    (h : matchRefAt pre s = some m) :
    ∃ ds a b, ds ≠ [] ∧ ds.all Char.isDigit = true ∧ a.isDigit = true ∧
      b.isDigit = true ∧
      m = pre ++ ds ++ ('/' :: '2' :: '0' :: a :: b :: []) := by
  unfold matchRefAt at h
  by_cases hp : pre.isPrefixOf s
  · rw [if_pos hp] at h
    by_cases hde : ((s.drop pre.length).takeWhile Char.isDigit).isEmpty
    · rw [if_pos hde] at h
      cases h
    · rw [if_neg hde] at h
      split at h
      · rename_i a b tail heq
        split at h
        · rename_i hab
          cases h
          rw [Bool.and_eq_true] at hab
          refine ⟨(s.drop pre.length).takeWhile Char.isDigit, a, b, ?_, ?_,
            hab.1, hab.2, rfl⟩
          · intro hnil
            apply hde
            rw [hnil]
            rfl
          · exact List.all_eq_true.mpr (fun x hx => List.mem_takeWhile_imp hx)
        · cases h
      · cases h
  · rw [if_neg hp] at h
    cases h

/-- Shape of the leftmost match of a pattern. -/
theorem findPat_shape (pre : List Char) :
    ∀ s m : List Char, findPat pre s = some m →
      ∃ ds a b, ds ≠ [] ∧ ds.all Char.isDigit = true ∧ a.isDigit = true ∧
        b.isDigit = true ∧
        m = pre ++ ds ++ ('/' :: '2' :: '0' :: a :: b :: []) := by
  intro s
  induction s with
  | nil => intro m h; cases h
  | cons c t ih =>
    intro m h
    simp only [findPat] at h
    cases hm : matchRefAt pre (c :: t) with
    | some m2 =>
      rw [hm] at h
      cases h
      exact matchRefAt_shape pre (c :: t) _ hm
    | none =>
      rw [hm] at h
      exact ih m h

theorem canonRef_of_upc (x : List Char) :
    canonRef (str "UPC_" ++ x) = str "UPC_" ++ x := by
  simp [canonRef, isPrefixOf_append_left]

theorem canonRef_of_bare (c : Char) (x : List Char) (hc : c ≠ 'U') :
    canonRef (c :: x) = str "UPC_" ++ (c :: x) := by
  have h1 : ('U' == c) = false :=
    beq_eq_false_iff_ne.mpr (fun he => hc he.symm)
  have h2 : (str "UPC_").isPrefixOf (c :: x) = false := by
    show List.isPrefixOf ('U' :: 'P' :: 'C' :: '_' :: []) (c :: x) = false
    simp [List.isPrefixOf, h1]
  simp [canonRef, h2]

theorem canonRef_upccfi (x : List Char) :
    canonRef (str "UPC_CFI_" ++ x) = str "UPC_CFI_" ++ x := by
  have h : str "UPC_CFI_" ++ x = str "UPC_" ++ (str "CFI_" ++ x) := rfl
  rw [h]
  exact canonRef_of_upc (str "CFI_" ++ x)

theorem canonRef_upccoa (x : List Char) :
    canonRef (str "UPC_CoA_" ++ x) = str "UPC_CoA_" ++ x := by
  have h : str "UPC_CoA_" ++ x = str "UPC_" ++ (str "CoA_" ++ x) := rfl
  rw [h]
  exact canonRef_of_upc (str "CoA_" ++ x)

theorem canonRef_cfi (x : List Char) :
    canonRef (str "CFI_" ++ x) = str "UPC_" ++ (str "CFI_" ++ x) := by
  have h : str "CFI_" ++ x = 'C' :: (str "FI_" ++ x) := rfl
  rw [h]
  exact canonRef_of_bare 'C' (str "FI_" ++ x) (by decide)

theorem canonRef_coa (x : List Char) :
    canonRef (str "CoA_" ++ x) = str "UPC_" ++ (str "CoA_" ++ x) := by
  have h : str "CoA_" ++ x = 'C' :: (str "oA_" ++ x) := rfl
  rw [h]
  exact canonRef_of_bare 'C' (str "oA_" ++ x) (by decide)

/-- C10, proved:  for every input text the extracted reference is either the
empty string or has the canonical shape `UPC_CFI_<digits>/20<dd>` or
`UPC_CoA_<digits>/20<dd>` (digits meaning ASCII digits, the model of the
source's `\d`) — in particular it always carries the `UPC_` namespace
prefix, bare matches having it prepended. -/
theorem c10_reference_shape (s : List Char) :
    extractRef s = [] ∨
    ∃ dv ds a b, (dv = str "CFI" ∨ dv = str "CoA") ∧ ds ≠ [] ∧
      ds.all Char.isDigit = true ∧ a.isDigit = true ∧ b.isDigit = true ∧
      extractRef s =
        str "UPC_" ++ dv ++ '_' :: (ds ++ ('/' :: '2' :: '0' :: a :: b :: [])) := by
  cases h1 : findPat (str "UPC_CFI_") s with
  | some m =>
    obtain ⟨ds, a, b, hne, hall, ha, hb, hm⟩ := findPat_shape _ s m h1
    right
    refine ⟨str "CFI", ds, a, b, Or.inl rfl, hne, hall, ha, hb, ?_⟩
    have he : extractRef s = canonRef m := by
      simp [extractRef, firstRef, refPatterns, h1]
    rw [he, hm, List.append_assoc, canonRef_upccfi]
    rfl
  | none =>
    cases h2 : findPat (str "UPC_CoA_") s with
    | some m =>
      obtain ⟨ds, a, b, hne, hall, ha, hb, hm⟩ := findPat_shape _ s m h2
      right
      refine ⟨str "CoA", ds, a, b, Or.inr rfl, hne, hall, ha, hb, ?_⟩
      have he : extractRef s = canonRef m := by
        simp [extractRef, firstRef, refPatterns, h1, h2]
      rw [he, hm, List.append_assoc, canonRef_upccoa]
      rfl
    | none =>
      cases h3 : findPat (str "CFI_") s with
      | some m =>
        obtain ⟨ds, a, b, hne, hall, ha, hb, hm⟩ := findPat_shape _ s m h3
        right
        refine ⟨str "CFI", ds, a, b, Or.inl rfl, hne, hall, ha, hb, ?_⟩
        have he : extractRef s = canonRef m := by
          simp [extractRef, firstRef, refPatterns, h1, h2, h3]
        rw [he, hm, List.append_assoc, canonRef_cfi]
        rfl
      | none =>
        cases h4 : findPat (str "CoA_") s with
        | some m =>
          obtain ⟨ds, a, b, hne, hall, ha, hb, hm⟩ := findPat_shape _ s m h4
          right
          refine ⟨str "CoA", ds, a, b, Or.inr rfl, hne, hall, ha, hb, ?_⟩
          have he : extractRef s = canonRef m := by
            simp [extractRef, firstRef, refPatterns, h1, h2, h3, h4]
          rw [he, hm, List.append_assoc, canonRef_coa]
          rfl
        | none =>
          left
          simp [extractRef, firstRef, refPatterns, h1, h2, h3, h4]

/-- A pattern whose literal head never occurs in the text matches nowhere. -/
theorem findPat_none_of_head (c : Char) (pre : List Char) :
    ∀ s : List Char, c ∉ s → findPat (c :: pre) s = none := by
  intro s
  induction s with
  | nil => intro _; rfl
  | cons d t ih =>
    intro hmem
    have hdc : (c == d) = false :=
      beq_eq_false_iff_ne.mpr
        (fun h => hmem (h ▸ List.mem_cons_self d t))
    have hpf : (c :: pre).isPrefixOf (d :: t) = false := by
      simp [List.isPrefixOf, hdc]
    have hmr : matchRefAt (c :: pre) (d :: t) = none := by
      simp [matchRefAt, hpf]
    simp only [findPat, hmr]
    exact ih (fun h => hmem (List.mem_cons_of_mem d h))

/-- Splitting `takeWhile`/`dropWhile` over an all-digit run followed by a
non-digit. -/
theorem takeWhile_append_digits (n : List Char) (c : Char) (t : List Char)
    (hnd : ∀ x ∈ n, x.isDigit = true) (hc : c.isDigit = false) :
    (n ++ c :: t).takeWhile Char.isDigit = n ∧
    (n ++ c :: t).dropWhile Char.isDigit = c :: t := by
  induction n with
  | nil => simp [List.takeWhile, List.dropWhile, hc]
  | cons d m ih =>
    have hd := hnd d (List.mem_cons_self d m)
    have ih2 := ih (fun x hx => hnd x (List.mem_cons_of_mem d hx))
    constructor
    · simp only [List.cons_append, List.takeWhile_cons, hd, if_pos, ih2.1]
    · simp only [List.cons_append, List.dropWhile_cons, hd, if_pos, ih2.2]

/-- A pattern matches the text `pre ++ digits ++ "/20" ++ two digits` at its
start, yielding exactly that text. -/
theorem matchRefAt_concat (pre n : List Char) (a b : Char) (hn : n ≠ [])
    (hnd : n.all Char.isDigit = true) (ha : a.isDigit = true)
    (hb : b.isDigit = true) :
    matchRefAt pre (pre ++ (n ++ ('/' :: '2' :: '0' :: a :: b :: []))) =
      some (pre ++ n ++ ('/' :: '2' :: '0' :: a :: b :: [])) := by
  have hsplit := takeWhile_append_digits n '/'
    ('2' :: '0' :: a :: b :: []) (fun x hx => List.all_eq_true.mp hnd x hx)
    (by decide)
  unfold matchRefAt
  rw [isPrefixOf_append_left, List.drop_left, if_pos rfl]
  rw [hsplit.1, hsplit.2]
  have hne : n.isEmpty = false := by
    cases n with
    | nil => exact absurd rfl hn
    | cons x xs => rfl
  rw [hne]
  simp [ha, hb]

theorem findPat_of_matchRefAt (pre : List Char) (c : Char) (t m : List Char)
    (h : matchRefAt pre (c :: t) = some m) :
    findPat pre (c :: t) = some m := by
  simp [findPat, h]

theorem digit_ne_char (c u : Char) (hu : u.isDigit = false)
    (hc : c.isDigit = true) : c ≠ u := by
  intro he
  rw [he, hu] at hc
  cases hc

/-- C3, proved:  extraction is a pure function of the text (determinism is
function-ness); the pattern priority is the source order — the leftmost match
of the first matching pattern is returned, a text matching both a specific
prefixed pattern and a generic bare one yielding the specific one; a bare
match gets `UPC_` prepended, so the differently-prefixed spellings
`CFI_n/20yy` and `UPC_CFI_n/20yy` of one code canonicalise to the same
result; and the empty string is returned when no pattern matches. -/
theorem c3_priority_and_canonicalization (s m n : List Char) (a b : Char) :
    (findPat (str "UPC_CFI_") s = some m → extractRef s = m) ∧
    (findPat (str "UPC_CFI_") s = none →
      findPat (str "UPC_CoA_") s = some m → extractRef s = m) ∧
    (findPat (str "UPC_CFI_") s = none → findPat (str "UPC_CoA_") s = none →
      findPat (str "CFI_") s = some m → extractRef s = str "UPC_" ++ m) ∧
    (findPat (str "UPC_CFI_") s = none → findPat (str "UPC_CoA_") s = none →
      findPat (str "CFI_") s = none → findPat (str "CoA_") s = some m →
      extractRef s = str "UPC_" ++ m) ∧
    (findPat (str "UPC_CFI_") s = none → findPat (str "UPC_CoA_") s = none →
      findPat (str "CFI_") s = none → findPat (str "CoA_") s = none →
      extractRef s = []) ∧
    (n ≠ [] → n.all Char.isDigit = true → a.isDigit = true →
      b.isDigit = true →
      extractRef (str "CFI_" ++ (n ++ ('/' :: '2' :: '0' :: a :: b :: []))) =
        extractRef
          (str "UPC_CFI_" ++ (n ++ ('/' :: '2' :: '0' :: a :: b :: [])))) := by
  refine ⟨?_, ?_, ?_, ?_, ?_, ?_⟩
  · intro h1
    obtain ⟨ds, a2, b2, _, _, _, _, hm⟩ := findPat_shape _ s m h1
    have he : extractRef s = canonRef m := by
      simp [extractRef, firstRef, refPatterns, h1]
    rw [he, hm, List.append_assoc, canonRef_upccfi, ← List.append_assoc, ← hm]
  · intro h1 h2
    obtain ⟨ds, a2, b2, _, _, _, _, hm⟩ := findPat_shape _ s m h2
    have he : extractRef s = canonRef m := by
      simp [extractRef, firstRef, refPatterns, h1, h2]
    rw [he, hm, List.append_assoc, canonRef_upccoa, ← List.append_assoc, ← hm]
  · intro h1 h2 h3
    obtain ⟨ds, a2, b2, _, _, _, _, hm⟩ := findPat_shape _ s m h3
    have he : extractRef s = canonRef m := by
      simp [extractRef, firstRef, refPatterns, h1, h2, h3]
    rw [he, hm, List.append_assoc, canonRef_cfi]
  · intro h1 h2 h3 h4
    obtain ⟨ds, a2, b2, _, _, _, _, hm⟩ := findPat_shape _ s m h4
    have he : extractRef s = canonRef m := by
      simp [extractRef, firstRef, refPatterns, h1, h2, h3, h4]
    rw [he, hm, List.append_assoc, canonRef_coa]
  · intro h1 h2 h3 h4
    simp [extractRef, firstRef, refPatterns, h1, h2, h3, h4]
  · intro hn hnd ha hb
    have hUmem : 'U' ∉ str "CFI_" ++ (n ++ ('/' :: '2' :: '0' :: a :: b :: [])) := by
      intro hmem
      rcases List.mem_append.mp hmem with h | h
      · revert h
        decide
      · rcases List.mem_append.mp h with h | h
        · exact absurd rfl
            (digit_ne_char 'U' 'U' (by decide) (List.all_eq_true.mp hnd 'U' h))
        · simp only [List.mem_cons, List.not_mem_nil, or_false] at h
          rcases h with h | h | h | h | h
          · exact absurd h (by decide)
          · exact absurd h (by decide)
          · exact absurd h (by decide)
          · rw [← h] at ha
            exact absurd ha (by decide)
          · rw [← h] at hb
            exact absurd hb (by decide)
    have hbare : findPat (str "CFI_")
        (str "CFI_" ++ (n ++ ('/' :: '2' :: '0' :: a :: b :: []))) =
        some (str "CFI_" ++ n ++ ('/' :: '2' :: '0' :: a :: b :: [])) :=
      findPat_of_matchRefAt (str "CFI_") 'C'
        (str "FI_" ++ (n ++ ('/' :: '2' :: '0' :: a :: b :: []))) _
        (matchRefAt_concat (str "CFI_") n a b hn hnd ha hb)
    have hfull : findPat (str "UPC_CFI_")
        (str "UPC_CFI_" ++ (n ++ ('/' :: '2' :: '0' :: a :: b :: []))) =
        some (str "UPC_CFI_" ++ n ++ ('/' :: '2' :: '0' :: a :: b :: [])) :=
      findPat_of_matchRefAt (str "UPC_CFI_") 'U'
        (str "PC_CFI_" ++ (n ++ ('/' :: '2' :: '0' :: a :: b :: []))) _
        (matchRefAt_concat (str "UPC_CFI_") n a b hn hnd ha hb)
    have hno1 : findPat (str "UPC_CFI_")
        (str "CFI_" ++ (n ++ ('/' :: '2' :: '0' :: a :: b :: []))) = none :=
      findPat_none_of_head 'U' (str "PC_CFI_") _ hUmem
    have hno2 : findPat (str "UPC_CoA_")
        (str "CFI_" ++ (n ++ ('/' :: '2' :: '0' :: a :: b :: []))) = none :=
      findPat_none_of_head 'U' (str "PC_CoA_") _ hUmem
    have hL : extractRef
        (str "CFI_" ++ (n ++ ('/' :: '2' :: '0' :: a :: b :: []))) =
        canonRef (str "CFI_" ++ n ++ ('/' :: '2' :: '0' :: a :: b :: [])) := by
      simp [extractRef, firstRef, refPatterns, hno1, hno2, hbare]
    have hR : extractRef
        (str "UPC_CFI_" ++ (n ++ ('/' :: '2' :: '0' :: a :: b :: []))) =
        canonRef (str "UPC_CFI_" ++ n ++ ('/' :: '2' :: '0' :: a :: b :: [])) := by
      simp [extractRef, firstRef, refPatterns, hfull]
    rw [hL, hR, List.append_assoc, List.append_assoc, canonRef_cfi,
      canonRef_upccfi]
    rfl

/-- Witness for C3: the bare spelling in a concrete text canonicalises with
the `UPC_` prefix via priority clause 3. -/
theorem c3_priority_and_canonicalization_witness :
    (findPat (str "UPC_CFI_") (str "see CFI_7/2024 end") = none ∧
     findPat (str "UPC_CoA_") (str "see CFI_7/2024 end") = none ∧
     findPat (str "CFI_") (str "see CFI_7/2024 end") =
       some (str "CFI_7/2024")) ∧
    extractRef (str "see CFI_7/2024 end") = str "UPC_" ++ str "CFI_7/2024" :=
  ⟨⟨by decide, by decide, by decide⟩,
    ((c3_priority_and_canonicalization (str "see CFI_7/2024 end")
      (str "CFI_7/2024") [] '0' '0').2.2.1 (by decide) (by decide) (by decide))⟩

/-!
## Traversal claim (C6)
-/

/-- Invariant of the page loop: at most `fuel` pages are fetched, the fetched
page indices are consecutive from the start index, and any fetched page that
failed or yielded zero new decisions is the last one fetched. -/
theorem scrapeGo_trace (env : Env) (now : Nat) :
    ∀ (fuel p : Nat) (db : DB),
      (scrapeGo env now fuel p db).2.length ≤ fuel ∧
      (scrapeGo env now fuel p db).2.map Prod.fst =
        List.range' p (scrapeGo env now fuel p db).2.length ∧
      (∀ pre k st suf,
        (scrapeGo env now fuel p db).2 = pre ++ (k, st) :: suf →
        (st = PageStep.perr ∨ st = PageStep.pok 0) → suf = []) := by
  intro fuel
  induction fuel with
  | zero =>
    intro p db
    refine ⟨Nat.le_refl 0, rfl, ?_⟩
    intro pre k st suf h _
    simp [scrapeGo] at h
  | succ fuel ih =>
    intro p db
    cases hpg : env.pageAt p with
    | perr =>
      have heq : scrapeGo env now (fuel + 1) p db =
          (db, [(p, PageStep.perr)]) := by
        simp only [scrapeGo, hpg]
      rw [heq]
      refine ⟨Nat.succ_le_succ (Nat.zero_le fuel), by simp, ?_⟩
      intro pre k st suf h _
      cases pre with
      | nil =>
        rw [List.nil_append] at h
        injection h with h1 h2
        exact h2.symm
      | cons x pre2 =>
        rw [List.cons_append] at h
        injection h with h1 h2
        simp at h2
    | pok rows =>
      by_cases hr : rows.isEmpty
      · have heq : scrapeGo env now (fuel + 1) p db =
            (db, [(p, PageStep.pok 0)]) := by
          simp only [scrapeGo, hpg]
          simp [hr]
        rw [heq]
        refine ⟨Nat.succ_le_succ (Nat.zero_le fuel), by simp, ?_⟩
        intro pre k st suf h _
        cases pre with
        | nil =>
          rw [List.nil_append] at h
          injection h with h1 h2
          exact h2.symm
        | cons x pre2 =>
          rw [List.cons_append] at h
          injection h with h1 h2
          simp at h2
      · by_cases hz : (processRows env now rows db).2 = 0
        · have heq : scrapeGo env now (fuel + 1) p db =
              ((processRows env now rows db).1, [(p, PageStep.pok 0)]) := by
            simp only [scrapeGo, hpg]
            simp [hr, hz]
          rw [heq]
          refine ⟨Nat.succ_le_succ (Nat.zero_le fuel), by simp, ?_⟩
          intro pre k st suf h _
          cases pre with
          | nil =>
            rw [List.nil_append] at h
            injection h with h1 h2
            exact h2.symm
          | cons x pre2 =>
            rw [List.cons_append] at h
            injection h with h1 h2
            simp at h2
        · have heq : scrapeGo env now (fuel + 1) p db =
              ((scrapeGo env now fuel (p + 1)
                  (processRows env now rows db).1).1,
               (p, PageStep.pok (processRows env now rows db).2) ::
                 (scrapeGo env now fuel (p + 1)
                   (processRows env now rows db).1).2) := by
            simp only [scrapeGo, hpg]
            simp [hr, hz]
          obtain ⟨ihlen, ihmap, ihdec⟩ :=
            ih (p + 1) (processRows env now rows db).1
          rw [heq]
          refine ⟨?_, ?_, ?_⟩
          · simpa using Nat.succ_le_succ ihlen
          · simp only [List.map_cons, List.length_cons, List.range'_succ]
            rw [ihmap]
          · intro pre k st suf h hst
            cases pre with
            | nil =>
              rw [List.nil_append] at h
              injection h with h1 h2
              have hsteq : PageStep.pok (processRows env now rows db).2 = st :=
                congrArg Prod.snd h1
              rcases hst with hh | hh
              · rw [hh] at hsteq
                cases hsteq
              · rw [hh] at hsteq
                injection hsteq with h3
                exact absurd h3 hz
            | cons x pre2 =>
              rw [List.cons_append] at h
              injection h with h1 h2
              exact ihdec pre2 k st suf h2 hst

/-- C6, proved:  in every `scrape_decisions` run at most `max_pages` listing
pages are fetched, the fetched page indices are exactly `0, 1, 2, …` in
order, and any fetched page that raised (`perr`) or yielded zero new
decisions (`pok 0`) is the final entry of the trace — no page with a greater
index is fetched after it. -/
theorem c6_traversal (env : Env) (now maxPages : Nat) (db : DB) :
    (scrape_decisions env now maxPages db).2.length ≤ maxPages ∧
    (scrape_decisions env now maxPages db).2.map Prod.fst =
      List.range' 0 (scrape_decisions env now maxPages db).2.length ∧
    (∀ pre k st suf,
      (scrape_decisions env now maxPages db).2 = pre ++ (k, st) :: suf →
      (st = PageStep.perr ∨ st = PageStep.pok 0) → suf = []) :=
  scrapeGo_trace env now maxPages 0 db

/-- Environment for the C6 witness: page 0 carries one fresh decision row,
every later page repeats it (so page 1 yields zero new decisions), documents
never resolve. -/
def envW6 : Env :=
  { pageAt := fun _ => PageFetch.pok [rowW7], docAt := fun _ => DocOutcome.derr }

/-- Witness for C6: a run whose second page yields zero new decisions stops
there — the trace decomposes with an empty tail after the `pok 0` entry. -/
theorem c6_traversal_witness :
    (scrape_decisions envW6 0 5 emptyDB).2 =
      [(0, PageStep.pok 1)] ++ (1, PageStep.pok 0) :: ([] : List (Nat × PageStep)) ∧
    (([] : List (Nat × PageStep)) = []) :=
  ⟨by decide,
    (c6_traversal envW6 0 5 emptyDB).2.2 [(0, PageStep.pok 1)] 1
      (PageStep.pok 0) [] (by decide) (Or.inr rfl)⟩

end UPC
